import Mathlib

/-!
Verification of the FogBugz search-query composer (`src/filter.rs`).

Strings are modelled as `List Char`; the Rust standard-library string
operations used by the module (`trim`, `trim_start_matches`, `contains`,
`starts_with`, `ends_with`, `replace`, `join`) are given explicit
executable models below.
-/

/-- Model of Rust `char::is_whitespace` (Unicode `White_Space`). -/
def isWsp (c : Char) : Bool :=
  c == ' ' || c == '\t' || c == '\n' || c == '\r' ||
  c == '\u000B' || c == '\u000C' || c == '\u0085' || c == '\u00A0' ||
  c == '\u1680' || c == '\u2000' || c == '\u2001' || c == '\u2002' ||
  c == '\u2003' || c == '\u2004' || c == '\u2005' || c == '\u2006' ||
  c == '\u2007' || c == '\u2008' || c == '\u2009' || c == '\u200A' ||
  c == '\u2028' || c == '\u2029' || c == '\u202F' || c == '\u205F' ||
  c == '\u3000'

/-- Model of Rust `str::trim_start`. -/
def trimStart (s : List Char) : List Char := s.dropWhile isWsp

/-- Model of Rust `str::trim_end`. -/
def trimEnd (s : List Char) : List Char := (s.reverse.dropWhile isWsp).reverse

/-- Model of Rust `str::trim`. -/
def trim (s : List Char) : List Char := trimEnd (trimStart s)

/-- Model of Rust `str::trim_start_matches('-')`. -/
def trimStartDashes (s : List Char) : List Char := s.dropWhile (fun c => c == '-')

/-- Model of Rust `str::contains(char)`. -/
def containsChar (s : List Char) (c : Char) : Bool := s.any (fun x => x == c)

/-- Model of Rust `str::starts_with(char)`. -/
def startsWithChar (s : List Char) (c : Char) : Bool :=
  match s with
  | [] => false
  | x :: _ => x == c

/-- Model of Rust `str::ends_with(char)`. -/
def endsWithChar (s : List Char) (c : Char) : Bool := startsWithChar s.reverse c

/-- Tests whether `pat` occurs at the start of `s`. -/
def matchesAt : List Char → List Char → Bool
  | [], _ => true
  | _ :: _, [] => false
  | p :: ps, c :: cs => p == c && matchesAt ps cs

/-- Model of Rust `str::contains(&str)` (substring search). -/
def hasSubstr (pat : List Char) : List Char → Bool
  | [] => matchesAt pat []
  | c :: cs => matchesAt pat (c :: cs) || hasSubstr pat cs

/-- Model of Rust `str::replace("\"", "\\\"")`: escape every double quote. -/
def escapeQuotes : List Char → List Char
  | [] => []
  | c :: rest => (if c == '"' then ['\\', '"'] else [c]) ++ escapeQuotes rest

/-- Model of Rust `Vec::<String>::join(sep)`. -/
def joinSep (sep : List Char) : List (List Char) → List Char
  | [] => []
  | [s] => s
  | s :: rest => s ++ sep ++ joinSep sep rest

/-- Component of a FogBugz search query (`enum SearchComponent` in `filter.rs`). -/
inductive SearchComponent where
  | Term (text : List Char)
  | Phrase (text : List Char)
  | NegatedTerm (text : List Char)
  | Axis (axis query : List Char)
  | NegatedAxis (axis query : List Char)
  | ExactAxis (axis query : List Char)
  | Or (components : List SearchComponent)

/-- Quoting condition for axis queries, from `SearchComponent::stringify`:
quote if the query contains a space, colon, double quote, the substring
`..`, or starts with `-`. -/
def needsQuoting (query : List Char) : Bool :=
  containsChar query ' ' || containsChar query ':' || containsChar query '"' ||
  hasSubstr ("..".data) query || startsWithChar query '-'

/-- Formatting of an axis query value, from `SearchComponent::stringify`:
wrap in quotes (escaping internal quotes) when quoting is needed and the
value is not already surrounded by quotes; otherwise only escape quotes. -/
def formatQuery (query : List Char) : List Char :=
  if needsQuoting query && !(startsWithChar query '"' && endsWithChar query '"') then
    '"' :: escapeQuotes query ++ ['"']
  else
    escapeQuotes query

mutual

/-- Model of `SearchComponent::stringify`. -/
def SearchComponent.stringify : SearchComponent → List Char
  | .Term term => term
  | .Phrase phrase => '"' :: escapeQuotes phrase ++ ['"']
  | .NegatedTerm term => '-' :: term
  | .Axis axis query => axis ++ ':' :: formatQuery query
  | .NegatedAxis axis query => '-' :: axis ++ ':' :: formatQuery query
  | .ExactAxis axis query => axis ++ ':' :: '=' :: escapeQuotes query
  | .Or components =>
      let parts := (SearchComponent.stringifyAll components).filter (fun s => !s.isEmpty)
      if parts.isEmpty then [] else '(' :: joinSep (" OR ".data) parts ++ [')']

/-- Stringification of a list of components, in order (the `iter().map()`
inside the `Or` arm of `SearchComponent::stringify`). -/
def SearchComponent.stringifyAll : List SearchComponent → List (List Char)
  | [] => []
  | c :: rest => SearchComponent.stringify c :: SearchComponent.stringifyAll rest

end

/-- Model of `struct OrBuilder`. -/
structure OrBuilder where
  components : List SearchComponent

/-- Model of `OrBuilder::new` (an empty builder, via `Default`). -/
def OrBuilder.new : OrBuilder := ⟨[]⟩

/-- Model of `OrBuilder::term`. -/
def OrBuilder.term (b : OrBuilder) (term : List Char) : OrBuilder :=
  if !(trim term).isEmpty then ⟨b.components ++ [SearchComponent.Term term]⟩ else b

/-- Model of `OrBuilder::phrase`. -/
def OrBuilder.phrase (b : OrBuilder) (phrase : List Char) : OrBuilder :=
  if !(trim phrase).isEmpty then ⟨b.components ++ [SearchComponent.Phrase phrase]⟩ else b

/-- Model of `OrBuilder::axis`. -/
def OrBuilder.axis (b : OrBuilder) (axis query : List Char) : OrBuilder :=
  if !(trim axis).isEmpty && !(trim query).isEmpty then
    ⟨b.components ++ [SearchComponent.Axis axis query]⟩
  else b

/-- Model of `OrBuilder::assigned_to`. -/
def OrBuilder.assigned_to (b : OrBuilder) (user_name : List Char) : OrBuilder :=
  b.axis ("assignedto".data) user_name

/-- Model of `OrBuilder::resolved_by`. -/
def OrBuilder.resolved_by (b : OrBuilder) (user_name : List Char) : OrBuilder :=
  b.axis ("resolvedby".data) user_name

/-- Model of `OrBuilder::edited_by`. -/
def OrBuilder.edited_by (b : OrBuilder) (user_name : List Char) : OrBuilder :=
  b.axis ("editedby".data) user_name

/-- Model of `struct FogBugzSearchBuilder`. -/
structure FogBugzSearchBuilder where
  components : List SearchComponent

/-- Model of `FogBugzSearchBuilder::new`. -/
def FogBugzSearchBuilder.new : FogBugzSearchBuilder := ⟨[]⟩

/-- Model of `FogBugzSearchBuilder::term`. -/
def FogBugzSearchBuilder.term (b : FogBugzSearchBuilder) (term : List Char) :
    FogBugzSearchBuilder :=
  if !(trim term).isEmpty then ⟨b.components ++ [SearchComponent.Term term]⟩ else b

/-- Model of `FogBugzSearchBuilder::phrase`. -/
def FogBugzSearchBuilder.phrase (b : FogBugzSearchBuilder) (phrase : List Char) :
    FogBugzSearchBuilder :=
  if !(trim phrase).isEmpty then ⟨b.components ++ [SearchComponent.Phrase phrase]⟩ else b

/-- Model of `FogBugzSearchBuilder::negated_term`. -/
def FogBugzSearchBuilder.negated_term (b : FogBugzSearchBuilder) (term : List Char) :
    FogBugzSearchBuilder :=
  if !(trim term).isEmpty then
    let clean_term := trimStartDashes (trim term)
    if !clean_term.isEmpty then ⟨b.components ++ [SearchComponent.NegatedTerm clean_term]⟩
    else b
  else b

/-- Model of `FogBugzSearchBuilder::axis`. -/
def FogBugzSearchBuilder.axis (b : FogBugzSearchBuilder) (axis query : List Char) :
    FogBugzSearchBuilder :=
  let axis_trimmed := trim axis
  let query_trimmed := trim query
  if !axis_trimmed.isEmpty && !query_trimmed.isEmpty then
    ⟨b.components ++ [SearchComponent.Axis axis_trimmed query_trimmed]⟩
  else b

/-- Model of `FogBugzSearchBuilder::negated_axis`. -/
def FogBugzSearchBuilder.negated_axis (b : FogBugzSearchBuilder) (axis query : List Char) :
    FogBugzSearchBuilder :=
  let axis_trimmed := trimStartDashes (trim axis)
  let query_trimmed := trim query
  if !axis_trimmed.isEmpty && !query_trimmed.isEmpty then
    ⟨b.components ++ [SearchComponent.NegatedAxis axis_trimmed query_trimmed]⟩
  else b

/-- Model of `FogBugzSearchBuilder::exact_axis`. -/
def FogBugzSearchBuilder.exact_axis (b : FogBugzSearchBuilder) (axis query : List Char) :
    FogBugzSearchBuilder :=
  let axis_trimmed := trim axis
  let query_trimmed := trim query
  if !axis_trimmed.isEmpty && !query_trimmed.isEmpty then
    ⟨b.components ++ [SearchComponent.ExactAxis axis_trimmed query_trimmed]⟩
  else b

/-- Model of `FogBugzSearchBuilder::or`. -/
def FogBugzSearchBuilder.or (b : FogBugzSearchBuilder)
    (build_or_group : OrBuilder → OrBuilder) : FogBugzSearchBuilder :=
  let finished_builder := build_or_group OrBuilder.new
  if !finished_builder.components.isEmpty then
    ⟨b.components ++ [SearchComponent.Or finished_builder.components]⟩
  else b

/-- Model of `FogBugzSearchBuilder::project`. -/
def FogBugzSearchBuilder.project (b : FogBugzSearchBuilder) (project_name : List Char) :
    FogBugzSearchBuilder :=
  b.axis ("project".data) project_name

/-- Model of `FogBugzSearchBuilder::assigned_to`. -/
def FogBugzSearchBuilder.assigned_to (b : FogBugzSearchBuilder) (user_name : List Char) :
    FogBugzSearchBuilder :=
  b.axis ("assignedto".data) user_name

/-- Model of `FogBugzSearchBuilder::opened_by`. -/
def FogBugzSearchBuilder.opened_by (b : FogBugzSearchBuilder) (user_name : List Char) :
    FogBugzSearchBuilder :=
  b.axis ("openedby".data) user_name

/-- Model of `FogBugzSearchBuilder::edited_by`. -/
def FogBugzSearchBuilder.edited_by (b : FogBugzSearchBuilder) (user_name : List Char) :
    FogBugzSearchBuilder :=
  b.axis ("editedby".data) user_name

/-- Model of `FogBugzSearchBuilder::also_edited_by`. -/
def FogBugzSearchBuilder.also_edited_by (b : FogBugzSearchBuilder) (user_name : List Char) :
    FogBugzSearchBuilder :=
  b.axis ("alsoeditedby".data) user_name

/-- Model of `FogBugzSearchBuilder::resolved_by`. -/
def FogBugzSearchBuilder.resolved_by (b : FogBugzSearchBuilder) (user_name : List Char) :
    FogBugzSearchBuilder :=
  b.axis ("resolvedby".data) user_name

/-- Model of `FogBugzSearchBuilder::status`. -/
def FogBugzSearchBuilder.status (b : FogBugzSearchBuilder) (status_name : List Char) :
    FogBugzSearchBuilder :=
  b.axis ("status".data) status_name

/-- Model of `FogBugzSearchBuilder::tag`. -/
def FogBugzSearchBuilder.tag (b : FogBugzSearchBuilder) (tag_name : List Char) :
    FogBugzSearchBuilder :=
  b.axis ("tag".data) tag_name

/-- Model of `FogBugzSearchBuilder::tag_wildcard`. -/
def FogBugzSearchBuilder.tag_wildcard (b : FogBugzSearchBuilder) (tag_pattern : List Char) :
    FogBugzSearchBuilder :=
  let query := if endsWithChar tag_pattern '*' then tag_pattern else tag_pattern ++ ['*']
  b.axis ("tag".data) query

/-- Model of `FogBugzSearchBuilder::type_is`. -/
def FogBugzSearchBuilder.type_is (b : FogBugzSearchBuilder) (doc_type : List Char) :
    FogBugzSearchBuilder :=
  b.axis ("type".data) doc_type

/-- Model of `FogBugzSearchBuilder::edited_date`. -/
def FogBugzSearchBuilder.edited_date (b : FogBugzSearchBuilder) (date_query : List Char) :
    FogBugzSearchBuilder :=
  b.axis ("edited".data) date_query

/-- Model of `FogBugzSearchBuilder::opened_date`. -/
def FogBugzSearchBuilder.opened_date (b : FogBugzSearchBuilder) (date_query : List Char) :
    FogBugzSearchBuilder :=
  b.axis ("opened".data) date_query

/-- Model of `FogBugzSearchBuilder::resolved_date`. -/
def FogBugzSearchBuilder.resolved_date (b : FogBugzSearchBuilder) (date_query : List Char) :
    FogBugzSearchBuilder :=
  b.axis ("resolved".data) date_query

/-- Model of `FogBugzSearchBuilder::closed_date`. -/
def FogBugzSearchBuilder.closed_date (b : FogBugzSearchBuilder) (date_query : List Char) :
    FogBugzSearchBuilder :=
  b.axis ("closed".data) date_query

/-- Model of `FogBugzSearchBuilder::due_date`. -/
def FogBugzSearchBuilder.due_date (b : FogBugzSearchBuilder) (date_query : List Char) :
    FogBugzSearchBuilder :=
  b.axis ("due".data) date_query

/-- Model of `FogBugzSearchBuilder::has_axis`. -/
def FogBugzSearchBuilder.has_axis (b : FogBugzSearchBuilder) (axis : List Char) :
    FogBugzSearchBuilder :=
  b.axis axis ("*".data)

/-- Model of `FogBugzSearchBuilder::missing_axis`. -/
def FogBugzSearchBuilder.missing_axis (b : FogBugzSearchBuilder) (axis : List Char) :
    FogBugzSearchBuilder :=
  b.negated_axis axis ("*".data)

/-- Model of `FogBugzSearchBuilder::order_by`. -/
def FogBugzSearchBuilder.order_by (b : FogBugzSearchBuilder) (axis : List Char)
    (descending : Bool) : FogBugzSearchBuilder :=
  let axis_trimmed := trim axis
  if !axis_trimmed.isEmpty then
    let order_axis_query := if descending then '-' :: axis_trimmed else axis_trimmed
    ⟨b.components ++ [SearchComponent.Axis ("OrderBy".data) order_axis_query]⟩
  else b

/-- Model of `FogBugzSearchBuilder::build`. -/
def FogBugzSearchBuilder.build (b : FogBugzSearchBuilder) : List Char :=
  let parts := (b.components.map SearchComponent.stringify).filter (fun s => !s.isEmpty)
  joinSep (" ".data) parts

/-- Model of the `fmt::Display` implementation for `FogBugzSearchBuilder`,
translated separately from its own body. -/
def FogBugzSearchBuilder.displayString (b : FogBugzSearchBuilder) : List Char :=
  let parts := (b.components.map SearchComponent.stringify).filter (fun s => !s.isEmpty)
  joinSep (" ".data) parts

/-! Invariant predicates over components. -/

/-- Validity of a component that is not an OR group (the shapes the
builders can place directly or inside an OR group): each stored `text`,
`axis` or `query` field is non-empty after trimming. -/
def childOk : SearchComponent → Bool
  | .Term t => !(trim t).isEmpty
  | .Phrase t => !(trim t).isEmpty
  | .NegatedTerm t => !(trim t).isEmpty
  | .Axis a q => !(trim a).isEmpty && !(trim q).isEmpty
  | .NegatedAxis a q => !(trim a).isEmpty && !(trim q).isEmpty
  | .ExactAxis a q => !(trim a).isEmpty && !(trim q).isEmpty
  | .Or _ => false

/-- Validity of a component reachable through the public append methods:
an OR group has a non-empty child list whose children are valid non-group
components; any other component satisfies `childOk`. -/
def compOk : SearchComponent → Bool
  | .Or cs => !cs.isEmpty && cs.all childOk
  | c => childOk c

mutual

/-- Statement of the field invariant: every `text`, `axis` and `query`
field stored anywhere in the component (children of OR groups included)
is non-empty after trimming. -/
def fieldsOk : SearchComponent → Bool
  | .Term t => !(trim t).isEmpty
  | .Phrase t => !(trim t).isEmpty
  | .NegatedTerm t => !(trim t).isEmpty
  | .Axis a q => !(trim a).isEmpty && !(trim q).isEmpty
  | .NegatedAxis a q => !(trim a).isEmpty && !(trim q).isEmpty
  | .ExactAxis a q => !(trim a).isEmpty && !(trim q).isEmpty
  | .Or cs => fieldsOkAll cs

/-- Field invariant for a list of components. -/
def fieldsOkAll : List SearchComponent → Bool
  | [] => true
  | c :: rest => fieldsOk c && fieldsOkAll rest

end

/-! Append operations as data, so that properties can be stated over every
sequence of calls against the public builder interface. -/

/-- Append calls of the `OrBuilder` interface. -/
inductive OrCall where
  | term (t : List Char)
  | phrase (t : List Char)
  | axis (a q : List Char)
  | assigned_to (u : List Char)
  | resolved_by (u : List Char)
  | edited_by (u : List Char)

/-- Application of one `OrBuilder` call. -/
def applyOrCall (g : OrBuilder) : OrCall → OrBuilder
  | .term t => g.term t
  | .phrase t => g.phrase t
  | .axis a q => g.axis a q
  | .assigned_to u => g.assigned_to u
  | .resolved_by u => g.resolved_by u
  | .edited_by u => g.edited_by u

/-- Application of a sequence of `OrBuilder` calls, in order. -/
def applyOrCalls (g : OrBuilder) : List OrCall → OrBuilder
  | [] => g
  | op :: rest => applyOrCalls (applyOrCall g op) rest

/-- Append calls of the `FogBugzSearchBuilder` interface that take string
input (the numeric helpers `project_id` and `case_number` delegate to
`exact_axis` and `axis` with a decimal rendering that is never blank). -/
inductive Op where
  | term (t : List Char)
  | phrase (t : List Char)
  | negated_term (t : List Char)
  | axis (a q : List Char)
  | negated_axis (a q : List Char)
  | exact_axis (a q : List Char)
  | or (ops : List OrCall)
  | project (p : List Char)
  | assigned_to (u : List Char)
  | opened_by (u : List Char)
  | edited_by (u : List Char)
  | also_edited_by (u : List Char)
  | resolved_by (u : List Char)
  | status (s : List Char)
  | tag (t : List Char)
  | tag_wildcard (t : List Char)
  | type_is (t : List Char)
  | edited_date (d : List Char)
  | opened_date (d : List Char)
  | resolved_date (d : List Char)
  | closed_date (d : List Char)
  | due_date (d : List Char)
  | has_axis (a : List Char)
  | missing_axis (a : List Char)
  | order_by (a : List Char) (descending : Bool)

/-- Application of one `FogBugzSearchBuilder` call. -/
def applyOp (b : FogBugzSearchBuilder) : Op → FogBugzSearchBuilder
  | .term t => b.term t
  | .phrase t => b.phrase t
  | .negated_term t => b.negated_term t
  | .axis a q => b.axis a q
  | .negated_axis a q => b.negated_axis a q
  | .exact_axis a q => b.exact_axis a q
  | .or ops => b.or (fun g => applyOrCalls g ops)
  | .project p => b.project p
  | .assigned_to u => b.assigned_to u
  | .opened_by u => b.opened_by u
  | .edited_by u => b.edited_by u
  | .also_edited_by u => b.also_edited_by u
  | .resolved_by u => b.resolved_by u
  | .status s => b.status s
  | .tag t => b.tag t
  | .tag_wildcard t => b.tag_wildcard t
  | .type_is t => b.type_is t
  | .edited_date d => b.edited_date d
  | .opened_date d => b.opened_date d
  | .resolved_date d => b.resolved_date d
  | .closed_date d => b.closed_date d
  | .due_date d => b.due_date d
  | .has_axis a => b.has_axis a
  | .missing_axis a => b.missing_axis a
  | .order_by a d => b.order_by a d

/-- Application of a sequence of `FogBugzSearchBuilder` calls, in order. -/
def applyOps (b : FogBugzSearchBuilder) : List Op → FogBugzSearchBuilder
  | [] => b
  | op :: rest => applyOps (applyOp b op) rest

/-! Rendering of a component list (the body shared by `build` and the
`Display` implementation), and how it grows under appends. -/

/-- Rendering of a list of components: stringify each, drop empty results,
join with single spaces. -/
def renderComponents (cs : List SearchComponent) : List Char :=
  joinSep (" ".data) ((cs.map SearchComponent.stringify).filter (fun s => !s.isEmpty))

/-! Control-path model of `stringify`: the `unreachable!()` arm made explicit. -/

mutual

/-- Model of `SearchComponent::stringify` with its panicking control path made
explicit: the `unreachable!()` arm of the inner match inside the shared
`Axis`/`NegatedAxis` case becomes `none`, and a `none` from any recursive
child of an `Or` group propagates outward. -/
def SearchComponent.stringifyChecked (c : SearchComponent) : Option (List Char) :=
  match c with
  | .Term term => some term
  | .Phrase phrase => some ('"' :: escapeQuotes phrase ++ ['"'])
  | .NegatedTerm term => some ('-' :: term)
  | .Axis _ _ | .NegatedAxis _ _ =>
      match c with
      | .Axis axis query => some (axis ++ ':' :: formatQuery query)
      | .NegatedAxis axis query => some ('-' :: axis ++ ':' :: formatQuery query)
      | _ => none
  | .ExactAxis axis query => some (axis ++ ':' :: '=' :: escapeQuotes query)
  | .Or components =>
      match SearchComponent.stringifyCheckedAll components with
      | none => none
      | some ss =>
          let parts := ss.filter (fun s => !s.isEmpty)
          some (if parts.isEmpty then [] else '(' :: joinSep (" OR ".data) parts ++ [')'])

/-- Checked stringification of a list of components. -/
def SearchComponent.stringifyCheckedAll : List SearchComponent → Option (List (List Char))
  | [] => some []
  | c :: rest =>
      match SearchComponent.stringifyChecked c, SearchComponent.stringifyCheckedAll rest with
      | some s, some ss => some (s :: ss)
      | _, _ => none

end

/-! Blank inputs to OR-group calls. -/

/-- Tests whether every string input of one `OrBuilder` call is blank
(trims to the empty string). -/
def OrCall.isBlank : OrCall → Bool
  | .term t => (trim t).isEmpty
  | .phrase t => (trim t).isEmpty
  | .axis a q => (trim a).isEmpty && (trim q).isEmpty
  | .assigned_to u => (trim u).isEmpty
  | .resolved_by u => (trim u).isEmpty
  | .edited_by u => (trim u).isEmpty

/-! Auxiliary facts about the string-operation models. -/

theorem all_wsp_of_trim_eq_nil {s : List Char} (h : trim s = []) :
    ∀ c ∈ s, isWsp c = true := by
  intro c hc
  have h1 : (trimStart s).reverse.dropWhile isWsp = [] := by
    have h0 := congrArg List.reverse h
    simpa [trim, trimEnd] using h0
  have h2 : ∀ x ∈ (trimStart s).reverse, isWsp x = true := List.dropWhile_eq_nil_iff.mp h1
  have h3 : ∀ x ∈ trimStart s, isWsp x = true := fun x hx => h2 x (List.mem_reverse.mpr hx)
  have hsplit : List.takeWhile isWsp s ++ List.dropWhile isWsp s = s :=
    List.takeWhile_append_dropWhile isWsp s
  have hc2 : c ∈ List.takeWhile isWsp s ++ List.dropWhile isWsp s := by rw [hsplit]; exact hc
  rcases List.mem_append.mp hc2 with h4 | h4
  · exact List.mem_takeWhile_imp h4
  · exact h3 c h4

theorem trim_ne_nil_of_mem {s : List Char} {c : Char} (hc : c ∈ s) (hw : isWsp c = false) :
    trim s ≠ [] := by
  intro h
  have := all_wsp_of_trim_eq_nil h c hc
  rw [hw] at this
  exact Bool.false_ne_true this

theorem head?_dropWhile_false (p : Char → Bool) :
    ∀ (l : List Char) (c : Char), (l.dropWhile p).head? = some c → p c = false := by
  intro l
  induction l with
  | nil => intro c h; simp [List.dropWhile] at h
  | cons a t ih =>
    intro c h
    rw [List.dropWhile_cons] at h
    by_cases hp : p a
    · rw [if_pos hp] at h; exact ih c h
    · rw [if_neg hp] at h
      have : a = c := by simpa using h
      subst this
      exact Bool.of_not_eq_true hp

theorem trimEnd_append (m : List Char) :
    trimEnd m ++ (m.reverse.takeWhile isWsp).reverse = m := by
  conv_rhs => rw [← List.reverse_reverse m, ← List.takeWhile_append_dropWhile isWsp m.reverse]
  rw [List.reverse_append, trimEnd]

theorem head?_trim {s : List Char} (h : trim s ≠ []) :
    ∃ c, (trim s).head? = some c ∧ isWsp c = false := by
  obtain ⟨c, rest, hcr⟩ : ∃ c rest, trim s = c :: rest := by
    cases htrim : trim s with
    | nil => exact absurd htrim h
    | cons c rest => exact ⟨c, rest, rfl⟩
  refine ⟨c, by rw [hcr]; rfl, ?_⟩
  have hdec : trim s ++ ((trimStart s).reverse.takeWhile isWsp).reverse = trimStart s :=
    trimEnd_append (trimStart s)
  rw [hcr] at hdec
  apply head?_dropWhile_false isWsp s c
  show (trimStart s).head? = some c
  rw [← hdec]
  rfl

theorem revhead_trim {s : List Char} (h : trim s ≠ []) :
    ∃ c, (trim s).reverse.head? = some c ∧ isWsp c = false := by
  have hrev : (trim s).reverse = (trimStart s).reverse.dropWhile isWsp := by
    rw [trim, trimEnd, List.reverse_reverse]
  have hne : (trimStart s).reverse.dropWhile isWsp ≠ [] := by
    rw [← hrev]
    simpa using h
  obtain ⟨c, rest, hcr⟩ : ∃ c rest, (trimStart s).reverse.dropWhile isWsp = c :: rest := by
    cases hx : (trimStart s).reverse.dropWhile isWsp with
    | nil => exact absurd hx hne
    | cons c rest => exact ⟨c, rest, rfl⟩
  refine ⟨c, by rw [hrev, hcr]; rfl, ?_⟩
  exact head?_dropWhile_false isWsp _ c (by rw [hcr]; rfl)

theorem mem_of_head?_some {l : List Char} {c : Char} (h : l.head? = some c) : c ∈ l := by
  cases l with
  | nil => simp at h
  | cons a t =>
    have : a = c := by simpa using h
    subst this
    exact List.mem_cons_self _ _

theorem trim_trim_ne_nil {s : List Char} (h : trim s ≠ []) : trim (trim s) ≠ [] := by
  obtain ⟨c, hc, hw⟩ := head?_trim h
  exact trim_ne_nil_of_mem (mem_of_head?_some hc) hw

theorem trim_trimStartDashes_ne_nil {s : List Char}
    (h : trimStartDashes (trim s) ≠ []) : trim (trimStartDashes (trim s)) ≠ [] := by
  have hts : trim s ≠ [] := by
    intro hnil
    rw [hnil] at h
    exact h rfl
  obtain ⟨c, hc, hw⟩ := revhead_trim hts
  have hsplit : List.takeWhile (fun c => c == '-') (trim s) ++ trimStartDashes (trim s)
      = trim s := List.takeWhile_append_dropWhile _ _
  have hrev : (trimStartDashes (trim s)).reverse
      ++ (List.takeWhile (fun c => c == '-') (trim s)).reverse = (trim s).reverse := by
    have h0 := congrArg List.reverse hsplit
    rw [List.reverse_append] at h0
    exact h0
  obtain ⟨x, xs, hx⟩ : ∃ x xs, (trimStartDashes (trim s)).reverse = x :: xs := by
    cases hdr : (trimStartDashes (trim s)).reverse with
    | nil => exact absurd (List.reverse_eq_nil_iff.mp hdr) h
    | cons x xs => exact ⟨x, xs, rfl⟩
  have hhead : (trim s).reverse.head? = some x := by rw [← hrev, hx]; rfl
  have hcx : x = c := by
    rw [hhead] at hc
    simpa using hc
  have hmem : x ∈ trimStartDashes (trim s) :=
    List.mem_reverse.mp (by rw [hx]; exact List.mem_cons_self _ _)
  exact trim_ne_nil_of_mem hmem (hcx ▸ hw)

theorem ne_nil_of_trim_ne_nil {s : List Char} (h : trim s ≠ []) : s ≠ [] := by
  intro hs
  rw [hs] at h
  exact h rfl

theorem escapeQuotes_eq_self {s : List Char} (h : containsChar s '"' = false) :
    escapeQuotes s = s := by
  induction s with
  | nil => rfl
  | cons c t ih =>
    simp only [containsChar, List.any_cons, Bool.or_eq_false_iff] at h
    have ih2 := ih (by simpa [containsChar] using h.2)
    simp [escapeQuotes, h.1, ih2]

theorem joinSep_snoc (sep : List Char) (xs : List (List Char)) (x : List Char) :
    joinSep sep (xs ++ [x]) = if xs.isEmpty then x else joinSep sep xs ++ sep ++ x := by
  induction xs with
  | nil => simp [joinSep]
  | cons y ys ih =>
    cases ys with
    | nil => simp [joinSep]
    | cons z zs =>
      have h1 : joinSep sep ((y :: z :: zs) ++ [x]) = y ++ sep ++ joinSep sep ((z :: zs) ++ [x]) := rfl
      have h2 : joinSep sep (y :: z :: zs) = y ++ sep ++ joinSep sep (z :: zs) := rfl
      rw [h1, ih]
      simp [h2, List.append_assoc]

theorem fieldsOk_of_childOk {c : SearchComponent} (h : childOk c = true) : fieldsOk c = true := by
  cases c <;> simp_all [childOk, fieldsOk]

theorem fieldsOkAll_of_all {cs : List SearchComponent}
    (h : ∀ c ∈ cs, childOk c = true) : fieldsOkAll cs = true := by
  induction cs with
  | nil => rfl
  | cons c rest ih =>
    rw [fieldsOkAll]
    have h1 := fieldsOk_of_childOk (h c (List.mem_cons_self _ _))
    have h2 := ih (fun c' hc' => h c' (List.mem_cons_of_mem _ hc'))
    rw [h1, h2]
    rfl

theorem fieldsOk_of_compOk {c : SearchComponent} (h : compOk c = true) : fieldsOk c = true := by
  cases c with
  | Or cs =>
    rw [compOk] at h
    rw [fieldsOk]
    exact fieldsOkAll_of_all (by
      have h2 := (Bool.and_eq_true _ _).mp h |>.2
      simpa [List.all_eq_true] using h2)
  | Term t => exact fieldsOk_of_childOk h
  | Phrase t => exact fieldsOk_of_childOk h
  | NegatedTerm t => exact fieldsOk_of_childOk h
  | Axis a q => exact fieldsOk_of_childOk h
  | NegatedAxis a q => exact fieldsOk_of_childOk h
  | ExactAxis a q => exact fieldsOk_of_childOk h

/-! Characterization of the append operations. -/

theorem bnot_isEmpty_iff {l : List Char} : (!l.isEmpty) = true ↔ l ≠ [] := by
  cases l <;> simp

theorem compOk_of_childOk {c : SearchComponent} (h : childOk c = true) : compOk c = true := by
  cases c <;> simp_all [childOk, compOk]

theorem stringifyAll_eq_map (cs : List SearchComponent) :
    SearchComponent.stringifyAll cs = cs.map SearchComponent.stringify := by
  induction cs with
  | nil => rfl
  | cons c rest ih => rw [SearchComponent.stringifyAll, ih, List.map_cons]

theorem stringify_ne_nil_of_childOk {c : SearchComponent} (h : childOk c = true) :
    SearchComponent.stringify c ≠ [] := by
  cases c with
  | Term t =>
    simp only [childOk] at h
    have ht : t ≠ [] := ne_nil_of_trim_ne_nil (bnot_isEmpty_iff.mp h)
    simpa [SearchComponent.stringify] using ht
  | Phrase t => simp [SearchComponent.stringify]
  | NegatedTerm t => simp [SearchComponent.stringify]
  | Axis a q => simp [SearchComponent.stringify]
  | NegatedAxis a q => simp [SearchComponent.stringify]
  | ExactAxis a q => simp [SearchComponent.stringify]
  | Or cs => simp [childOk] at h

theorem stringify_ne_nil_of_compOk {c : SearchComponent} (h : compOk c = true) :
    SearchComponent.stringify c ≠ [] := by
  cases c with
  | Or cs =>
    simp only [compOk, Bool.and_eq_true] at h
    obtain ⟨h1, h2⟩ := h
    obtain ⟨c0, rest, rfl⟩ : ∃ c0 rest, cs = c0 :: rest := by
      cases cs with
      | nil => simp at h1
      | cons c0 rest => exact ⟨c0, rest, rfl⟩
    have hall : ∀ x ∈ c0 :: rest, childOk x = true := by
      simpa [List.all_eq_true] using h2
    have h0 : SearchComponent.stringify c0 ≠ [] :=
      stringify_ne_nil_of_childOk (hall c0 (List.mem_cons_self _ _))
    have hmem : SearchComponent.stringify c0
        ∈ (SearchComponent.stringifyAll (c0 :: rest)).filter (fun s => !s.isEmpty) := by
      rw [stringifyAll_eq_map]
      exact List.mem_filter.mpr
        ⟨List.mem_map_of_mem _ (List.mem_cons_self _ _), bnot_isEmpty_iff.mpr h0⟩
    have hne : ((SearchComponent.stringifyAll (c0 :: rest)).filter
        (fun s => !s.isEmpty)).isEmpty = false := by
      rcases hx : (SearchComponent.stringifyAll (c0 :: rest)).filter (fun s => !s.isEmpty) with
        _ | ⟨x, xs⟩
      · rw [hx] at hmem; simp at hmem
      · rw [hx]; rfl
    simp [SearchComponent.stringify, hne]
  | Term t => exact stringify_ne_nil_of_childOk h
  | Phrase t => exact stringify_ne_nil_of_childOk h
  | NegatedTerm t => exact stringify_ne_nil_of_childOk h
  | Axis a q => exact stringify_ne_nil_of_childOk h
  | NegatedAxis a q => exact stringify_ne_nil_of_childOk h
  | ExactAxis a q => exact stringify_ne_nil_of_childOk h

theorem orBuilder_term_cases (g : OrBuilder) (t : List Char) :
    g.term t = g ∨ ∃ c, childOk c = true ∧ (g.term t).components = g.components ++ [c] := by
  simp only [OrBuilder.term]
  by_cases h : (!(trim t).isEmpty) = true
  · exact Or.inr ⟨SearchComponent.Term t, by simp [childOk, h], by rw [if_pos h]⟩
  · exact Or.inl (by rw [if_neg h])

theorem orBuilder_phrase_cases (g : OrBuilder) (t : List Char) :
    g.phrase t = g ∨ ∃ c, childOk c = true ∧ (g.phrase t).components = g.components ++ [c] := by
  simp only [OrBuilder.phrase]
  by_cases h : (!(trim t).isEmpty) = true
  · exact Or.inr ⟨SearchComponent.Phrase t, by simp [childOk, h], by rw [if_pos h]⟩
  · exact Or.inl (by rw [if_neg h])

theorem orBuilder_axis_cases (g : OrBuilder) (a q : List Char) :
    g.axis a q = g ∨ ∃ c, childOk c = true ∧ (g.axis a q).components = g.components ++ [c] := by
  simp only [OrBuilder.axis]
  by_cases h : (!(trim a).isEmpty && !(trim q).isEmpty) = true
  · exact Or.inr ⟨SearchComponent.Axis a q, by simp [childOk]; simpa using h, by rw [if_pos h]⟩
  · exact Or.inl (by rw [if_neg h])

theorem applyOrCall_cases (g : OrBuilder) (op : OrCall) :
    applyOrCall g op = g
      ∨ ∃ c, childOk c = true ∧ (applyOrCall g op).components = g.components ++ [c] := by
  cases op with
  | term t => exact orBuilder_term_cases g t
  | phrase t => exact orBuilder_phrase_cases g t
  | axis a q => exact orBuilder_axis_cases g a q
  | assigned_to u => exact orBuilder_axis_cases g _ u
  | resolved_by u => exact orBuilder_axis_cases g _ u
  | edited_by u => exact orBuilder_axis_cases g _ u

theorem applyOrCalls_ok (ops : List OrCall) (g : OrBuilder)
    (hg : ∀ c ∈ g.components, childOk c = true) :
    ∀ c ∈ (applyOrCalls g ops).components, childOk c = true := by
  induction ops generalizing g with
  | nil => exact hg
  | cons op rest ih =>
    apply ih
    rcases applyOrCall_cases g op with h | ⟨c, hc, hcomp⟩
    · rw [h]; exact hg
    · intro c' hc'
      rw [hcomp] at hc'
      rcases List.mem_append.mp hc' with h1 | h1
      · exact hg c' h1
      · have : c' = c := by simpa using h1
        rw [this]; exact hc

theorem fb_term_cases (b : FogBugzSearchBuilder) (t : List Char) :
    b.term t = b ∨ ∃ c, compOk c = true ∧ (b.term t).components = b.components ++ [c] := by
  simp only [FogBugzSearchBuilder.term]
  by_cases h : (!(trim t).isEmpty) = true
  · exact Or.inr ⟨SearchComponent.Term t, by simp [compOk, childOk, h], by rw [if_pos h]⟩
  · exact Or.inl (by rw [if_neg h])

theorem fb_phrase_cases (b : FogBugzSearchBuilder) (t : List Char) :
    b.phrase t = b ∨ ∃ c, compOk c = true ∧ (b.phrase t).components = b.components ++ [c] := by
  simp only [FogBugzSearchBuilder.phrase]
  by_cases h : (!(trim t).isEmpty) = true
  · exact Or.inr ⟨SearchComponent.Phrase t, by simp [compOk, childOk, h], by rw [if_pos h]⟩
  · exact Or.inl (by rw [if_neg h])

theorem fb_negated_term_cases (b : FogBugzSearchBuilder) (t : List Char) :
    b.negated_term t = b
      ∨ ∃ c, compOk c = true ∧ (b.negated_term t).components = b.components ++ [c] := by
  simp only [FogBugzSearchBuilder.negated_term]
  by_cases h : (!(trim t).isEmpty) = true
  · rw [if_pos h]
    by_cases h2 : (!(trimStartDashes (trim t)).isEmpty) = true
    · rw [if_pos h2]
      refine Or.inr ⟨SearchComponent.NegatedTerm (trimStartDashes (trim t)), ?_, rfl⟩
      have h3 : trim (trimStartDashes (trim t)) ≠ [] :=
        trim_trimStartDashes_ne_nil (bnot_isEmpty_iff.mp h2)
      simp [compOk, childOk, bnot_isEmpty_iff.mpr h3]
    · rw [if_neg h2]; exact Or.inl rfl
  · rw [if_neg h]; exact Or.inl rfl

theorem fb_axis_cases (b : FogBugzSearchBuilder) (a q : List Char) :
    b.axis a q = b ∨ ∃ c, compOk c = true ∧ (b.axis a q).components = b.components ++ [c] := by
  simp only [FogBugzSearchBuilder.axis]
  by_cases h : (!(trim a).isEmpty && !(trim q).isEmpty) = true
  · rw [if_pos h]
    obtain ⟨h1, h2⟩ := Bool.and_eq_true_iff.mp h
    refine Or.inr ⟨SearchComponent.Axis (trim a) (trim q), ?_, rfl⟩
    have h3 := trim_trim_ne_nil (bnot_isEmpty_iff.mp h1)
    have h4 := trim_trim_ne_nil (bnot_isEmpty_iff.mp h2)
    simp [compOk, childOk, bnot_isEmpty_iff.mpr h3, bnot_isEmpty_iff.mpr h4]
  · rw [if_neg h]; exact Or.inl rfl

theorem fb_negated_axis_cases (b : FogBugzSearchBuilder) (a q : List Char) :
    b.negated_axis a q = b
      ∨ ∃ c, compOk c = true ∧ (b.negated_axis a q).components = b.components ++ [c] := by
  simp only [FogBugzSearchBuilder.negated_axis]
  by_cases h : (!(trimStartDashes (trim a)).isEmpty && !(trim q).isEmpty) = true
  · rw [if_pos h]
    obtain ⟨h1, h2⟩ := Bool.and_eq_true_iff.mp h
    refine Or.inr ⟨SearchComponent.NegatedAxis (trimStartDashes (trim a)) (trim q), ?_, rfl⟩
    have h3 := trim_trimStartDashes_ne_nil (bnot_isEmpty_iff.mp h1)
    have h4 := trim_trim_ne_nil (bnot_isEmpty_iff.mp h2)
    simp [compOk, childOk, bnot_isEmpty_iff.mpr h3, bnot_isEmpty_iff.mpr h4]
  · rw [if_neg h]; exact Or.inl rfl

theorem fb_exact_axis_cases (b : FogBugzSearchBuilder) (a q : List Char) :
    b.exact_axis a q = b
      ∨ ∃ c, compOk c = true ∧ (b.exact_axis a q).components = b.components ++ [c] := by
  simp only [FogBugzSearchBuilder.exact_axis]
  by_cases h : (!(trim a).isEmpty && !(trim q).isEmpty) = true
  · rw [if_pos h]
    obtain ⟨h1, h2⟩ := Bool.and_eq_true_iff.mp h
    refine Or.inr ⟨SearchComponent.ExactAxis (trim a) (trim q), ?_, rfl⟩
    have h3 := trim_trim_ne_nil (bnot_isEmpty_iff.mp h1)
    have h4 := trim_trim_ne_nil (bnot_isEmpty_iff.mp h2)
    simp [compOk, childOk, bnot_isEmpty_iff.mpr h3, bnot_isEmpty_iff.mpr h4]
  · rw [if_neg h]; exact Or.inl rfl

theorem fb_or_cases (b : FogBugzSearchBuilder) (f : OrBuilder → OrBuilder)
    (hf : ∀ c ∈ (f OrBuilder.new).components, childOk c = true) :
    b.or f = b ∨ ∃ c, compOk c = true ∧ (b.or f).components = b.components ++ [c] := by
  simp only [FogBugzSearchBuilder.or]
  by_cases h : (!(f OrBuilder.new).components.isEmpty) = true
  · rw [if_pos h]
    refine Or.inr ⟨SearchComponent.Or (f OrBuilder.new).components, ?_, rfl⟩
    simp only [compOk, Bool.and_eq_true]
    exact ⟨h, List.all_eq_true.mpr hf⟩
  · rw [if_neg h]; exact Or.inl rfl

theorem fb_order_by_cases (b : FogBugzSearchBuilder) (a : List Char) (d : Bool) :
    b.order_by a d = b
      ∨ ∃ c, compOk c = true ∧ (b.order_by a d).components = b.components ++ [c] := by
  simp only [FogBugzSearchBuilder.order_by]
  by_cases h : (!(trim a).isEmpty) = true
  · rw [if_pos h]
    refine Or.inr ⟨SearchComponent.Axis ("OrderBy".data) (if d then '-' :: trim a else trim a),
      ?_, rfl⟩
    have hOB : (!(trim ("OrderBy".data)).isEmpty) = true := by decide
    cases d with
    | false =>
      have h3 := trim_trim_ne_nil (bnot_isEmpty_iff.mp h)
      simp [compOk, childOk, hOB, bnot_isEmpty_iff.mpr h3]
    | true =>
      have h3 : trim ('-' :: trim a) ≠ [] :=
        trim_ne_nil_of_mem (List.mem_cons_self _ _) (by decide)
      simp [compOk, childOk, hOB, bnot_isEmpty_iff.mpr h3]
  · rw [if_neg h]; exact Or.inl rfl

theorem applyOp_cases (b : FogBugzSearchBuilder) (op : Op) :
    applyOp b op = b ∨ ∃ c, compOk c = true ∧ (applyOp b op).components = b.components ++ [c] := by
  cases op with
  | term t => exact fb_term_cases b t
  | phrase t => exact fb_phrase_cases b t
  | negated_term t => exact fb_negated_term_cases b t
  | axis a q => exact fb_axis_cases b a q
  | negated_axis a q => exact fb_negated_axis_cases b a q
  | exact_axis a q => exact fb_exact_axis_cases b a q
  | or ops =>
    exact fb_or_cases b (fun g => applyOrCalls g ops)
      (applyOrCalls_ok ops OrBuilder.new (by intro c hc; simp [OrBuilder.new] at hc))
  | project p => exact fb_axis_cases b _ p
  | assigned_to u => exact fb_axis_cases b _ u
  | opened_by u => exact fb_axis_cases b _ u
  | edited_by u => exact fb_axis_cases b _ u
  | also_edited_by u => exact fb_axis_cases b _ u
  | resolved_by u => exact fb_axis_cases b _ u
  | status s => exact fb_axis_cases b _ s
  | tag t => exact fb_axis_cases b _ t
  | tag_wildcard t => exact fb_axis_cases b _ _
  | type_is t => exact fb_axis_cases b _ t
  | edited_date d => exact fb_axis_cases b _ d
  | opened_date d => exact fb_axis_cases b _ d
  | resolved_date d => exact fb_axis_cases b _ d
  | closed_date d => exact fb_axis_cases b _ d
  | due_date d => exact fb_axis_cases b _ d
  | has_axis a => exact fb_axis_cases b a _
  | missing_axis a => exact fb_negated_axis_cases b a _
  | order_by a d => exact fb_order_by_cases b a d

theorem applyOps_ok (ops : List Op) (b : FogBugzSearchBuilder)
    (hb : ∀ c ∈ b.components, compOk c = true) :
    ∀ c ∈ (applyOps b ops).components, compOk c = true := by
  induction ops generalizing b with
  | nil => exact hb
  | cons op rest ih =>
    apply ih
    rcases applyOp_cases b op with h | ⟨c, hc, hcomp⟩
    · rw [h]; exact hb
    · intro c' hc'
      rw [hcomp] at hc'
      rcases List.mem_append.mp hc' with h1 | h1
      · exact hb c' h1
      · have : c' = c := by simpa using h1
        rw [this]; exact hc

theorem build_eq_renderComponents (b : FogBugzSearchBuilder) :
    b.build = renderComponents b.components := rfl

theorem renderComponents_snoc (cs : List SearchComponent) (c : SearchComponent)
    (hcs : ∀ c' ∈ cs, SearchComponent.stringify c' ≠ [])
    (hc : SearchComponent.stringify c ≠ []) :
    renderComponents (cs ++ [c])
      = renderComponents cs ++ (if cs.isEmpty then [] else (" ".data))
        ++ SearchComponent.stringify c := by
  have hfil : ((cs.map SearchComponent.stringify).filter (fun s => !s.isEmpty))
      = cs.map SearchComponent.stringify := by
    apply List.filter_eq_self.mpr
    intro s hs
    obtain ⟨c', hc', rfl⟩ := List.mem_map.mp hs
    exact bnot_isEmpty_iff.mpr (hcs c' hc')
  have hone : List.filter (fun s => !s.isEmpty) [SearchComponent.stringify c]
      = [SearchComponent.stringify c] := by
    simp [List.filter, bnot_isEmpty_iff.mpr hc]
  have hlen : (cs.map SearchComponent.stringify).isEmpty = cs.isEmpty := by
    cases cs <;> rfl
  simp only [renderComponents, List.map_append, List.map_cons, List.map_nil,
    List.filter_append, hfil, hone, joinSep_snoc, hlen]
  rcases hq : cs.isEmpty with _ | _
  · simp [hq, List.append_assoc]
  · have hnil : cs = [] := List.isEmpty_iff.mp hq
    subst hnil
    simp [joinSep]

theorem renderComponents_ne_nil (cs : List SearchComponent)
    (hne : cs ≠ []) (hcs : ∀ c' ∈ cs, SearchComponent.stringify c' ≠ []) :
    renderComponents cs ≠ [] := by
  obtain ⟨c0, rest, rfl⟩ : ∃ c0 rest, cs = c0 :: rest := by
    cases cs with
    | nil => exact absurd rfl hne
    | cons c0 rest => exact ⟨c0, rest, rfl⟩
  have h0 : SearchComponent.stringify c0 ≠ [] := hcs c0 (List.mem_cons_self _ _)
  rw [renderComponents]
  have hfil : ((c0 :: rest).map SearchComponent.stringify).filter (fun s => !s.isEmpty)
      = SearchComponent.stringify c0
        :: ((rest.map SearchComponent.stringify).filter (fun s => !s.isEmpty)) := by
    simp [List.filter, bnot_isEmpty_iff.mpr h0]
  rw [hfil]
  cases hr : (rest.map SearchComponent.stringify).filter (fun s => !s.isEmpty) with
  | nil => simpa [joinSep] using h0
  | cons x xs =>
    simp only [joinSep]
    intro hcontra
    simp at hcontra

mutual

theorem stringifyChecked_eq : ∀ c : SearchComponent,
    SearchComponent.stringifyChecked c = some (SearchComponent.stringify c)
  | .Term _ => rfl
  | .Phrase _ => rfl
  | .NegatedTerm _ => rfl
  | .Axis _ _ => rfl
  | .NegatedAxis _ _ => rfl
  | .ExactAxis _ _ => rfl
  | .Or cs => by
      rw [SearchComponent.stringifyChecked, stringifyCheckedAll_eq cs]
      rfl

theorem stringifyCheckedAll_eq : ∀ cs : List SearchComponent,
    SearchComponent.stringifyCheckedAll cs = some (SearchComponent.stringifyAll cs)
  | [] => rfl
  | c :: rest => by
      rw [SearchComponent.stringifyCheckedAll, stringifyChecked_eq c,
        stringifyCheckedAll_eq rest]
      rfl

end

theorem applyOrCall_blank (g : OrBuilder) (op : OrCall) (h : OrCall.isBlank op = true) :
    applyOrCall g op = g := by
  cases op with
  | term t =>
    simp only [OrCall.isBlank] at h
    simp [applyOrCall, OrBuilder.term, h]
  | phrase t =>
    simp only [OrCall.isBlank] at h
    simp [applyOrCall, OrBuilder.phrase, h]
  | axis a q =>
    simp only [OrCall.isBlank, Bool.and_eq_true] at h
    simp [applyOrCall, OrBuilder.axis, h.1]
  | assigned_to u =>
    simp only [OrCall.isBlank] at h
    simp [applyOrCall, OrBuilder.assigned_to, OrBuilder.axis, h]
  | resolved_by u =>
    simp only [OrCall.isBlank] at h
    simp [applyOrCall, OrBuilder.resolved_by, OrBuilder.axis, h]
  | edited_by u =>
    simp only [OrCall.isBlank] at h
    simp [applyOrCall, OrBuilder.edited_by, OrBuilder.axis, h]

theorem applyOrCalls_blank (ops : List OrCall) (g : OrBuilder)
    (h : ∀ op ∈ ops, OrCall.isBlank op = true) : applyOrCalls g ops = g := by
  induction ops generalizing g with
  | nil => rfl
  | cons op rest ih =>
    rw [applyOrCalls, applyOrCall_blank g op (h op (List.mem_cons_self _ _))]
    exact ih g (fun o ho => h o (List.mem_cons_of_mem _ ho))

/-! Claim theorems. -/

/-- C1: a composer built with, in order, `project("Sample Project")`,
`status("Active")`, an OR group of `assigned_to("Alice")` and
`assigned_to("Bob")`, `edited_date("-1w..today")`,
`negated_axis("tag","obsolete")`, `order_by("Priority", false)`,
`order_by("Due", true)` renders exactly the expected query string. -/
theorem complex_query_render :
    (((((((FogBugzSearchBuilder.new.project ("Sample Project".data)).status
      ("Active".data)).or
      (fun g => (g.assigned_to ("Alice".data)).assigned_to ("Bob".data))).edited_date
      ("-1w..today".data)).negated_axis ("tag".data) ("obsolete".data)).order_by
      ("Priority".data) false).order_by ("Due".data) true).build
    = ("project:\"Sample Project\" status:Active (assignedto:Alice OR assignedto:Bob) edited:\"-1w..today\" -tag:obsolete OrderBy:Priority OrderBy:\"-Due\"".data) := by
  decide

/-- C2 counterexample: for the already-quoted axis value `"abc"`, the rendered
clause escapes the surrounding quotes as well (the output is `a:\"abc\"`), so
the surrounding quotes are not left as-is as the claim states. -/
theorem prequoted_axis_value_cex :
    (FogBugzSearchBuilder.new.axis ("a".data) ("\"abc\"".data)).build
      = ("a:\\\"abc\\\"".data) ∧
    ("a:\\\"abc\\\"".data) ≠ ("a:\"abc\"".data) := by
  decide

/-- C2 amended: for every axis value v that needs quoting and is already
wrapped in double quotes, rendering the Axis or NegatedAxis clause adds no
additional surrounding quotes, but escapes every double quote occurring in
v — the pre-existing surrounding pair included — as a backslash-quote. -/
theorem prequoted_axis_value_render (n v : List Char)
    (h1 : needsQuoting v = true) (h2 : startsWithChar v '"' = true)
    (h3 : endsWithChar v '"' = true) :
    SearchComponent.stringify (SearchComponent.Axis n v) = n ++ ':' :: escapeQuotes v ∧
    SearchComponent.stringify (SearchComponent.NegatedAxis n v)
      = '-' :: n ++ ':' :: escapeQuotes v := by
  have hfq : formatQuery v = escapeQuotes v := by
    simp [formatQuery, h1, h2, h3]
  exact ⟨by simp [SearchComponent.stringify, hfq], by simp [SearchComponent.stringify, hfq]⟩

/-- C2 witness: the amended statement evaluated at the concrete pre-quoted
value `"abc"`. -/
theorem prequoted_axis_value_render_witness :
    needsQuoting ("\"abc\"".data) = true ∧
    startsWithChar ("\"abc\"".data) '"' = true ∧
    endsWithChar ("\"abc\"".data) '"' = true ∧
    SearchComponent.stringify (SearchComponent.Axis ("a".data) ("\"abc\"".data))
      = ("a".data) ++ ':' :: escapeQuotes ("\"abc\"".data) ∧
    SearchComponent.stringify (SearchComponent.NegatedAxis ("a".data) ("\"abc\"".data))
      = '-' :: ("a".data) ++ ':' :: escapeQuotes ("\"abc\"".data) :=
  ⟨by decide, by decide, by decide,
    (prequoted_axis_value_render ("a".data) ("\"abc\"".data)
      (by decide) (by decide) (by decide)).1,
    (prequoted_axis_value_render ("a".data) ("\"abc\"".data)
      (by decide) (by decide) (by decide)).2⟩

/-- C3 counterexample: `term(" apple ")` renders `" apple "` with its
surrounding whitespace preserved, not the trimmed `"apple"` that the claim
states. -/
theorem term_trims_input_cex :
    (FogBugzSearchBuilder.new.term (" apple ".data)).build = (" apple ".data) ∧
    (" apple ".data) ≠ ("apple".data) := by
  decide

/-- C3 amended: `term` and `phrase` (on the top-level composer and on the
OR-group sub-composer) drop inputs whose trimmed form is empty, but store and
render non-blank inputs verbatim, without trimming. -/
theorem term_phrase_store_verbatim (s : List Char) :
    (FogBugzSearchBuilder.new.term s).build = (if (trim s).isEmpty then [] else s) ∧
    (FogBugzSearchBuilder.new.phrase s).build
      = (if (trim s).isEmpty then [] else '"' :: escapeQuotes s ++ ['"']) ∧
    (OrBuilder.new.term s).components
      = (if (trim s).isEmpty then [] else [SearchComponent.Term s]) ∧
    (OrBuilder.new.phrase s).components
      = (if (trim s).isEmpty then [] else [SearchComponent.Phrase s]) := by
  rcases hq : (trim s).isEmpty with _ | _
  · have hts : trim s ≠ [] := by
      intro h0
      rw [h0] at hq
      simp at hq
    have hs : s ≠ [] := ne_nil_of_trim_ne_nil hts
    refine ⟨?_, ?_, ?_, ?_⟩
    · simp [FogBugzSearchBuilder.term, FogBugzSearchBuilder.new, hq,
        FogBugzSearchBuilder.build, SearchComponent.stringify, List.filter,
        bnot_isEmpty_iff.mpr hs, joinSep]
    · simp [FogBugzSearchBuilder.phrase, FogBugzSearchBuilder.new, hq,
        FogBugzSearchBuilder.build, SearchComponent.stringify, List.filter, joinSep]
    · simp [OrBuilder.term, OrBuilder.new, hq]
    · simp [OrBuilder.phrase, OrBuilder.new, hq]
  · refine ⟨?_, ?_, ?_, ?_⟩
    · simp [FogBugzSearchBuilder.term, FogBugzSearchBuilder.new, hq,
        FogBugzSearchBuilder.build, joinSep]
    · simp [FogBugzSearchBuilder.phrase, FogBugzSearchBuilder.new, hq,
        FogBugzSearchBuilder.build, joinSep]
    · simp [OrBuilder.term, OrBuilder.new, hq]
    · simp [OrBuilder.phrase, OrBuilder.new, hq]

/-- C4: an `or` callback whose every call receives only blank (empty or
whitespace-only) input appends no component at all to any composer, and
`build` on an otherwise-empty composer yields the empty string, not `()`. -/
theorem blank_or_group_adds_nothing (ops : List OrCall)
    (h : ∀ op ∈ ops, OrCall.isBlank op = true) :
    (∀ b : FogBugzSearchBuilder,
      (b.or (fun g => applyOrCalls g ops)).components = b.components) ∧
    (FogBugzSearchBuilder.new.or (fun g => applyOrCalls g ops)).build = [] := by
  have hg : applyOrCalls OrBuilder.new ops = OrBuilder.new := applyOrCalls_blank ops _ h
  constructor
  · intro b
    simp only [FogBugzSearchBuilder.or]
    rw [hg]
    simp [OrBuilder.new]
  · simp only [FogBugzSearchBuilder.or]
    rw [hg]
    simp [OrBuilder.new, FogBugzSearchBuilder.new, FogBugzSearchBuilder.build, joinSep]

/-- C4 witness: a group callback adding only a whitespace-only term and a
blank axis pair contributes nothing. -/
theorem blank_or_group_adds_nothing_witness :
    (∀ op ∈ [OrCall.term ("  ".data), OrCall.axis ([]) (" ".data)],
      OrCall.isBlank op = true) ∧
    (FogBugzSearchBuilder.new.or
      (fun g => applyOrCalls g [OrCall.term ("  ".data), OrCall.axis ([]) (" ".data)])).components
      = FogBugzSearchBuilder.new.components ∧
    (FogBugzSearchBuilder.new.or
      (fun g => applyOrCalls g [OrCall.term ("  ".data), OrCall.axis ([]) (" ".data)])).build
      = [] :=
  ⟨by decide,
    (blank_or_group_adds_nothing _ (by decide)).1 FogBugzSearchBuilder.new,
    (blank_or_group_adds_nothing _ (by decide)).2⟩

/-- C5: after any sequence of append calls against the public interface,
every component stored in the composer satisfies the field invariant: each
of its `text`, `axis` and `query` fields — children of OR groups included —
is non-empty after trimming. -/
theorem stored_fields_trim_nonempty (ops : List Op) (c : SearchComponent)
    (hc : c ∈ (applyOps FogBugzSearchBuilder.new ops).components) :
    fieldsOk c = true :=
  fieldsOk_of_compOk (applyOps_ok ops FogBugzSearchBuilder.new
    (by intro c' hc'; simp [FogBugzSearchBuilder.new] at hc') c hc)

/-- C5 witness: the invariant evaluated on the single component stored by
`term("x")`. -/
theorem stored_fields_trim_nonempty_witness :
    (SearchComponent.Term ("x".data)
      ∈ (applyOps FogBugzSearchBuilder.new [Op.term ("x".data)]).components) ∧
    fieldsOk (SearchComponent.Term ("x".data)) = true := by
  have hmem : SearchComponent.Term ("x".data)
      ∈ (applyOps FogBugzSearchBuilder.new [Op.term ("x".data)]).components := by
    show SearchComponent.Term ("x".data) ∈ [SearchComponent.Term ("x".data)]
    exact List.mem_singleton_self _
  exact ⟨hmem, stored_fields_trim_nonempty [Op.term ("x".data)] _ hmem⟩

/-- C6: whenever two consecutive append calls each successfully store a
component (first `ca`, then `cb`), the rendered query extends the previous
rendering with the text of `ca` strictly before the text of `cb`, the two
separated by a single space. -/
theorem insertion_order_preserved (ops : List Op) (opA opB : Op) (ca cb : SearchComponent)
    (hA : (applyOp (applyOps FogBugzSearchBuilder.new ops) opA).components
        = (applyOps FogBugzSearchBuilder.new ops).components ++ [ca])
    (hB : (applyOp (applyOp (applyOps FogBugzSearchBuilder.new ops) opA) opB).components
        = (applyOp (applyOps FogBugzSearchBuilder.new ops) opA).components ++ [cb]) :
    (applyOp (applyOp (applyOps FogBugzSearchBuilder.new ops) opA) opB).build
      = (applyOps FogBugzSearchBuilder.new ops).build
        ++ (if (applyOps FogBugzSearchBuilder.new ops).components.isEmpty then [] else [' '])
        ++ SearchComponent.stringify ca ++ [' '] ++ SearchComponent.stringify cb := by
  set b0 := applyOps FogBugzSearchBuilder.new ops with hb0
  have hok : ∀ c ∈ b0.components, compOk c = true :=
    applyOps_ok ops _ (by intro c hc; simp [FogBugzSearchBuilder.new] at hc)
  have hcaOk : compOk ca = true := by
    rcases applyOp_cases b0 opA with h | ⟨c, hc, hcomp⟩
    · rw [h] at hA
      exact absurd hA (by simp)
    · rw [hcomp] at hA
      have hceq : c = ca := by simpa using List.append_cancel_left hA
      exact hceq ▸ hc
  have hcbOk : compOk cb = true := by
    rcases applyOp_cases (applyOp b0 opA) opB with h | ⟨c, hc, hcomp⟩
    · rw [h] at hB
      exact absurd hB (by simp)
    · rw [hcomp] at hB
      have hceq : c = cb := by simpa using List.append_cancel_left hB
      exact hceq ▸ hc
  have hstrs : ∀ c ∈ b0.components, SearchComponent.stringify c ≠ [] :=
    fun c hc => stringify_ne_nil_of_compOk (hok c hc)
  have hsa : SearchComponent.stringify ca ≠ [] := stringify_ne_nil_of_compOk hcaOk
  have hsb : SearchComponent.stringify cb ≠ [] := stringify_ne_nil_of_compOk hcbOk
  have hallA : ∀ c ∈ b0.components ++ [ca], SearchComponent.stringify c ≠ [] := by
    intro c hc
    rcases List.mem_append.mp hc with h1 | h1
    · exact hstrs c h1
    · have : c = ca := by simpa using h1
      rw [this]; exact hsa
  rw [build_eq_renderComponents, build_eq_renderComponents, hB, hA]
  rw [renderComponents_snoc (b0.components ++ [ca]) cb hallA hsb]
  rw [renderComponents_snoc b0.components ca hstrs hsa]
  have happ : (b0.components ++ [ca]).isEmpty = false := by
    cases b0.components <;> rfl
  rw [happ]
  simp [List.append_assoc]

/-- C6 witness: two terms appended to the empty composer render in insertion
order, one space apart. -/
theorem insertion_order_preserved_witness :
    ((applyOp (applyOps FogBugzSearchBuilder.new []) (Op.term ("a".data))).components
      = (applyOps FogBugzSearchBuilder.new []).components
        ++ [SearchComponent.Term ("a".data)]) ∧
    ((applyOp (applyOp (applyOps FogBugzSearchBuilder.new []) (Op.term ("a".data)))
        (Op.term ("b".data))).components
      = (applyOp (applyOps FogBugzSearchBuilder.new []) (Op.term ("a".data))).components
        ++ [SearchComponent.Term ("b".data)]) ∧
    (applyOp (applyOp (applyOps FogBugzSearchBuilder.new []) (Op.term ("a".data)))
        (Op.term ("b".data))).build
      = (applyOps FogBugzSearchBuilder.new []).build
        ++ (if (applyOps FogBugzSearchBuilder.new []).components.isEmpty then [] else [' '])
        ++ SearchComponent.stringify (SearchComponent.Term ("a".data)) ++ [' ']
        ++ SearchComponent.stringify (SearchComponent.Term ("b".data)) := by
  have h1 : (applyOp (applyOps FogBugzSearchBuilder.new []) (Op.term ("a".data))).components
      = (applyOps FogBugzSearchBuilder.new []).components
        ++ [SearchComponent.Term ("a".data)] := rfl
  have h2 : (applyOp (applyOp (applyOps FogBugzSearchBuilder.new []) (Op.term ("a".data)))
        (Op.term ("b".data))).components
      = (applyOp (applyOps FogBugzSearchBuilder.new []) (Op.term ("a".data))).components
        ++ [SearchComponent.Term ("b".data)] := rfl
  exact ⟨h1, h2, insertion_order_preserved [] _ _ _ _ h1 h2⟩

/-- C7 counterexample: for the axis name `a b` (which contains a space),
`order_by("a b", false)` renders with quotes, so an ascending sort directive
is not always rendered unquoted as the claim states. -/
theorem order_by_ascending_unquoted_cex :
    (FogBugzSearchBuilder.new.order_by ("a b".data) false).build
      = ("OrderBy:\"a b\"".data) ∧
    ("OrderBy:\"a b\"".data) ≠ ("OrderBy:a b".data) := by
  decide

/-- C7 amended: for every non-empty trimmed axis name that itself needs no
quoting (no space, colon or double quote, no `..`, no leading `-`),
`order_by(a, false)` renders as `OrderBy:` followed by the name unquoted,
while `order_by(a, true)` renders as `OrderBy:` followed by `-` and the name
wrapped in double quotes (the synthesized leading `-` triggers quoting). -/
theorem order_by_quoting (a : List Char) (h1 : trim a = a) (h2 : a ≠ [])
    (h3 : needsQuoting a = false) :
    (FogBugzSearchBuilder.new.order_by a false).build = ("OrderBy:".data) ++ a ∧
    (FogBugzSearchBuilder.new.order_by a true).build
      = ("OrderBy:\"-".data) ++ a ++ ['"'] := by
  have hnq : containsChar a '"' = false := by
    simp only [needsQuoting, Bool.or_eq_false_iff] at h3
    exact h3.1.1.2
  have hesc : escapeQuotes a = a := escapeQuotes_eq_self hnq
  have hbf : FogBugzSearchBuilder.new.order_by a false
      = ⟨[SearchComponent.Axis ("OrderBy".data) a]⟩ := by
    simp [FogBugzSearchBuilder.order_by, h1, FogBugzSearchBuilder.new,
      bnot_isEmpty_iff.mpr h2]
  have hbt : FogBugzSearchBuilder.new.order_by a true
      = ⟨[SearchComponent.Axis ("OrderBy".data) ('-' :: a)]⟩ := by
    simp [FogBugzSearchBuilder.order_by, h1, FogBugzSearchBuilder.new,
      bnot_isEmpty_iff.mpr h2]
  constructor
  · have hfq : formatQuery a = a := by
      simp [formatQuery, h3, hesc]
    have hst : SearchComponent.stringify (SearchComponent.Axis ("OrderBy".data) a)
        = ("OrderBy".data) ++ ':' :: a := by
      simp [SearchComponent.stringify, hfq]
    rw [hbf, build_eq_renderComponents]
    simp [renderComponents, hst, joinSep]
  · have hq2 : needsQuoting ('-' :: a) = true := by
      simp [needsQuoting, startsWithChar]
    have hsq : startsWithChar ('-' :: a) '"' = false := rfl
    have hesc2 : escapeQuotes ('-' :: a) = '-' :: a := by
      rw [escapeQuotes, hesc]
      rfl
    have hfq : formatQuery ('-' :: a) = '"' :: '-' :: a ++ ['"'] := by
      rw [formatQuery, if_pos]
      · rw [hesc2]
      · simp [hq2, hsq]
    have hst : SearchComponent.stringify (SearchComponent.Axis ("OrderBy".data) ('-' :: a))
        = ("OrderBy".data) ++ ':' :: '"' :: '-' :: a ++ ['"'] := by
      simp [SearchComponent.stringify, hfq]
    rw [hbt, build_eq_renderComponents]
    simp [renderComponents, hst, joinSep]

/-- C7 witness: the amended statement evaluated at the axis name
`Milestone`, reproducing the spec examples `OrderBy:Milestone` and
`OrderBy:"-Milestone"`. -/
theorem order_by_quoting_witness :
    trim ("Milestone".data) = ("Milestone".data) ∧ ("Milestone".data) ≠ ([] : List Char) ∧
    needsQuoting ("Milestone".data) = false ∧
    (FogBugzSearchBuilder.new.order_by ("Milestone".data) false).build
      = ("OrderBy:Milestone".data) ∧
    (FogBugzSearchBuilder.new.order_by ("Milestone".data) true).build
      = ("OrderBy:\"-Milestone\"".data) := by
  have h := order_by_quoting ("Milestone".data) (by decide) (by decide) (by decide)
  refine ⟨by decide, by decide, by decide, ?_, ?_⟩
  · rw [h.1]
    decide
  · rw [h.2]
    decide

/-- C8: the composer is total: `stringify` agrees with its checked variant on
every component (so the `unreachable!()` arm is never executed, and OR-group
rendering never propagates a panic), and every append call on either builder
either leaves the component list unchanged (silently dropping its input) or
appends exactly one component — no call can fail. -/
theorem composer_total_no_panic :
    (∀ c : SearchComponent,
      SearchComponent.stringifyChecked c = some (SearchComponent.stringify c)) ∧
    (∀ (g : OrBuilder) (op : OrCall),
      applyOrCall g op = g
        ∨ ∃ c, (applyOrCall g op).components = g.components ++ [c]) ∧
    (∀ (b : FogBugzSearchBuilder) (op : Op),
      applyOp b op = b ∨ ∃ c, (applyOp b op).components = b.components ++ [c]) :=
  ⟨stringifyChecked_eq,
    fun g op => (applyOrCall_cases g op).imp id (fun h => ⟨h.choose, h.choose_spec.2⟩),
    fun b op => (applyOp_cases b op).imp id (fun h => ⟨h.choose, h.choose_spec.2⟩)⟩

/-- C9: for every non-empty trimmed name and value, `exact_axis` renders the
name, the `:=` operator, then the value with each double quote escaped and
with no surrounding quotes added, regardless of the value's content. -/
theorem exact_axis_render (n v : List Char) (h1 : trim n = n) (h2 : n ≠ [])
    (h3 : trim v = v) (h4 : v ≠ []) :
    (FogBugzSearchBuilder.new.exact_axis n v).build
      = n ++ ':' :: '=' :: escapeQuotes v := by
  have hb : FogBugzSearchBuilder.new.exact_axis n v
      = ⟨[SearchComponent.ExactAxis n v]⟩ := by
    simp [FogBugzSearchBuilder.exact_axis, h1, h3, FogBugzSearchBuilder.new,
      bnot_isEmpty_iff.mpr h2, bnot_isEmpty_iff.mpr h4]
  have hst : SearchComponent.stringify (SearchComponent.ExactAxis n v)
      = n ++ ':' :: '=' :: escapeQuotes v := by
    simp [SearchComponent.stringify]
  rw [hb, build_eq_renderComponents]
  have hne : (!(n ++ ':' :: '=' :: escapeQuotes v).isEmpty) = true := by
    rcases n with _ | ⟨x, xs⟩ <;> rfl
  simp [renderComponents, hst, joinSep, hne]

/-- C9 witness: `exact_axis("project", "a b")` renders `project:=a b`, the
value kept verbatim with no quoting despite its space. -/
theorem exact_axis_render_witness :
    trim ("project".data) = ("project".data) ∧ ("project".data) ≠ ([] : List Char) ∧
    trim ("a b".data) = ("a b".data) ∧ ("a b".data) ≠ ([] : List Char) ∧
    (FogBugzSearchBuilder.new.exact_axis ("project".data) ("a b".data)).build
      = ("project:=a b".data) := by
  have h := exact_axis_render ("project".data) ("a b".data)
    (by decide) (by decide) (by decide) (by decide)
  refine ⟨by decide, by decide, by decide, by decide, ?_⟩
  rw [h]
  decide

/-- C10: the `Display` implementation of the builder renders exactly the
same string as `build` on every builder state. -/
theorem display_eq_build (b : FogBugzSearchBuilder) : b.displayString = b.build := rfl

/-- C3 witness: the amended statement evaluated at the input `" apple "`. -/
theorem term_phrase_store_verbatim_witness :
    (FogBugzSearchBuilder.new.term (" apple ".data)).build
      = (if (trim (" apple ".data)).isEmpty then [] else (" apple ".data)) ∧
    (FogBugzSearchBuilder.new.phrase (" apple ".data)).build
      = (if (trim (" apple ".data)).isEmpty then []
          else '"' :: escapeQuotes (" apple ".data) ++ ['"']) ∧
    (OrBuilder.new.term (" apple ".data)).components
      = (if (trim (" apple ".data)).isEmpty then []
          else [SearchComponent.Term (" apple ".data)]) ∧
    (OrBuilder.new.phrase (" apple ".data)).components
      = (if (trim (" apple ".data)).isEmpty then []
          else [SearchComponent.Phrase (" apple ".data)]) :=
  term_phrase_store_verbatim (" apple ".data)

/-- C10 witness: the two render paths agree on a concrete two-component
builder state. -/
theorem display_eq_build_witness :
    ((FogBugzSearchBuilder.new.term ("a".data)).phrase ("b c".data)).displayString
      = ((FogBugzSearchBuilder.new.term ("a".data)).phrase ("b c".data)).build :=
  display_eq_build ((FogBugzSearchBuilder.new.term ("a".data)).phrase ("b c".data))
